import Mathlib

/-!
Verification of the sfTA structure-factor twist-averaging analysis.

Shallow embedding of `analyse_cc4s.py`.  The script reads, for each
simulation run (one directory), a grid of G-vectors, a Coulomb potential
and a structure factor; it bins the rows by (rounded) G-magnitude,
averages them over all runs, and selects the run whose own per-magnitude
mean structure factor is closest (least sum of squared differences) to
the ensemble average.

Modelling conventions:
* File contents are modelled as the list of numbers they parse to
  (`np.loadtxt` on a whitespace-separated flat file); the numeric values
  carried through the tabular pipeline are modelled as exact rationals
  (every IEEE-754 double is a rational; we idealise the arithmetic as
  exact).
* The exact real square roots appearing in the G-vector magnitudes and
  in the standard errors of the mean are modelled in `ℝ`.
* A raised Python exception is modelled as `Except.error` with the
  message; `NaN` entries produced by pandas (`sem` of a single-element
  group) are modelled as `Option.none`.
* A pandas `DataFrame` row of the per-run tables is an `SFRow`; the
  rows of the averaged table are `AvgRow`s.  `groupby("G", as_index=False)`
  sorts the distinct keys ascending and computes each aggregate over the
  group; with `as_index=False` the key column `G` of the aggregated
  frame holds the group key itself (also in the result of `.sem()`).
-/

namespace SfTA

/-- One row of a per-run structure-factor table
(`pd.DataFrame` with columns G, V_G, S_G, line 190):
rounded G-magnitude, Coulomb potential, structure factor. -/
structure SFRow where
  G : ℚ
  V_G : ℚ
  S_G : ℚ
deriving DecidableEq

/-- Round to the nearest integer, ties to even — the rounding mode of
`numpy.round`. -/
def roundHalfEven (q : ℚ) : ℤ :=
  let f : ℤ := ⌊q⌋
  let frac : ℚ := q - f
  if frac < 1/2 then f
  else if 1/2 < frac then f + 1
  else if f % 2 = 0 then f else f + 1

/-- `numpy.round(10)`: round to 10 decimal places (ties to even). -/
def round10 (q : ℚ) : ℚ := (roundHalfEven (q * 10^10) : ℚ) / 10^10

/-- The triples obtained by reshaping a flat list into rows of 3
(`raw_g_xyz.reshape((N_G, 3))`); a trailing fragment of fewer than 3
elements is dropped (the reshape guard below rules that case out). -/
def toTriples : List ℚ → List (ℚ × ℚ × ℚ)
  | x :: y :: z :: rest => (x, y, z) :: toTriples rest
  | _ => []

/-- Euclidean magnitude of one G-vector row:
`np.sqrt(np.einsum(..., g_xyz, g_xyz))` applied to row `(x,y,z)`. -/
noncomputable def magnitude (t : ℚ × ℚ × ℚ) : ℝ :=
  Real.sqrt ((t.1 : ℝ)^2 + (t.2.1 : ℝ)^2 + (t.2.2 : ℝ)^2)

/-- `read_and_generate_Gvector_magnitudes`: reshape the flat list of
parsed numbers into `N_G = len/3` rows of 3 and take the
magnitude of each row.  `numpy.reshape` raises when `N_G * 3` is not the element
count, i.e. when the count is not a multiple of 3. -/
noncomputable def read_and_generate_Gvector_magnitudes (raw : List ℚ) :
    Except String (List ℝ) :=
  let N_G : ℕ := raw.length / 3
  if raw.length = N_G * 3 then .ok ((toTriples raw).map magnitude)
  else .error "cannot reshape array"

/-- Row-wise zip of the three columns of a per-run table. -/
def zipRows : List ℚ → List ℚ → List ℚ → List SFRow
  | g :: gs, v :: vs, s :: ss => ⟨g, v, s⟩ :: zipRows gs vs ss
  | _, _, _ => []

/-- `pd.DataFrame` built from columns G (rounded), V_G, S_G
(line 190): pandas raises `ValueError: All arrays must be of the same
length` when the three column arrays differ in length; otherwise the
table pairs the columns row-wise, with `G` rounded to 10 decimals. -/
def mkRunTable (G V_G S_G : List ℚ) : Except String (List SFRow) :=
  if G.length = V_G.length ∧ G.length = S_G.length then
    .ok (zipRows (G.map round10) V_G S_G)
  else .error "All arrays must be of the same length"

/-- The distinct `G` keys of `groupby("G")`, in ascending order. -/
def keysOf (rows : List SFRow) : List ℚ :=
  List.insertionSort (· ≤ ·) (rows.map SFRow.G).dedup

/-- The group of rows with key `k` under `groupby("G")`. -/
def groupOf (k : ℚ) (rows : List SFRow) : List SFRow :=
  rows.filter (fun r => decide (r.G = k))

/-- Arithmetic mean of a list (pandas `mean`). -/
def meanQ (xs : List ℚ) : ℚ := xs.sum / xs.length

/-- Sample variance with one delta degree of freedom (pandas default
`ddof=1`). -/
def sampleVar (xs : List ℚ) : ℚ :=
  ((xs.map (fun x => (x - meanQ xs)^2)).sum) / ((xs.length : ℚ) - 1)

/-- pandas `sem`: sample standard deviation divided by the square root
of the group size; `NaN` (here `none`) for groups of size ≤ 1. -/
noncomputable def semSE (xs : List ℚ) : Option ℝ :=
  if xs.length ≤ 1 then none
  else some (Real.sqrt (sampleVar xs) / Real.sqrt (xs.length : ℝ))

/-- One row of the averaged table `SF`: the group key, the group means
of `V_G` and `S_G`, and the three columns copied from
`group.sem()[[G, V_G, S_G]]`.  With `as_index=False` the `G`
column of the `.sem()` result holds the group key itself, so `G_error`
receives the key, while `V_G_error` and `S_G_error` receive standard
errors of the mean. -/
structure AvgRow where
  G : ℚ
  V_G : ℚ
  S_G : ℚ
  G_error : Option ℝ
  V_G_error : Option ℝ
  S_G_error : Option ℝ

/-- The grouped-and-aggregated table built from a combined row list:
`group = rows.groupby("G", as_index=False)`, `SF = group.mean()`, and
the assignment of the three columns of `group.sem()` (key G, sem of V_G,
sem of S_G, in that order) to G_error, V_G_error, S_G_error. -/
noncomputable def averageRows (rows : List SFRow) : List AvgRow :=
  (keysOf rows).map fun k =>
    let g := groupOf k rows
    { G := k
      V_G := meanQ (g.map SFRow.V_G)
      S_G := meanQ (g.map SFRow.S_G)
      G_error := some (k : ℝ)
      V_G_error := semSE (g.map SFRow.V_G)
      S_G_error := semSE (g.map SFRow.S_G) }

/-- `read_and_average_SF`, analysis part: concatenate the per-run tables
(`pd.concat(raw_SF)`) and aggregate.  Returns the average table `SF`
(the per-run list `raw_SF` is returned unchanged by the script). -/
noncomputable def averageRuns (runs : List (List SFRow)) : List AvgRow :=
  averageRows runs.flatten

/-- Per-run regrouping inside `find_special_twist_angle`:
`aSFi = SFi.groupby("G", as_index=False).mean()`. -/
def groupMeanRows (rows : List SFRow) : List SFRow :=
  (keysOf rows).map fun k =>
    let g := groupOf k rows
    { G := k
      V_G := meanQ (g.map SFRow.V_G)
      S_G := meanQ (g.map SFRow.S_G) }

/-- `np.power(np.abs(a - b), 2).sum()` over two aligned columns. -/
def sumSqDiff (a b : List ℚ) : ℚ :=
  (a.zipWith (fun x y => |x - y|^2) b).sum

/-- The residual of one run against the averaged structure factor:
`np.power(np.abs(SF[S_G] - aSFi[S_G]), 2).sum()`. -/
def residualOf (avgS : List ℚ) (rows : List SFRow) : ℚ :=
  sumSqDiff avgS ((groupMeanRows rows).map SFRow.S_G)

/-- `np.argmin`: index of the first occurrence of the minimum. -/
def argminIdx : List ℚ → ℕ
  | [] => 0
  | [_] => 0
  | x :: y :: ys =>
    if x ≤ (y :: ys).getD (argminIdx (y :: ys)) 0 then 0
    else argminIdx (y :: ys) + 1

/-- The loop of `find_special_twist_angle`: per run, regroup, record the
residual, and raise if the key sequence of the run differs from that of
the average table. -/
def residualLoop (avgG avgS : List ℚ) : List (List SFRow) → Except String (List ℚ)
  | [] => .ok []
  | SFi :: rest =>
    let aSFi := groupMeanRows SFi
    let r := sumSqDiff avgS (aSFi.map SFRow.S_G)
    if aSFi.map SFRow.G = avgG then
      (residualLoop avgG avgS rest).map (fun l => r :: l)
    else
      .error "G value arrays are not equivlent betweenthe average SF and an individual SF.This should not happen!"

/-- `find_special_twist_angle`: the index (0-based, input order) of the
run with the first-minimal residual against the average table. -/
def find_special_twist_angle (raw_SF : List (List SFRow)) (SF : List AvgRow) :
    Except String ℕ :=
  (residualLoop (SF.map AvgRow.G) (SF.map AvgRow.S_G) raw_SF).map argminIdx

/-- Does `pat` occur at the head of `s`? (Used to implement the Python
substring-containment test.) -/
def leadsWith : List Char → List Char → Bool
  | [], _ => true
  | _ :: _, [] => false
  | p :: ps, c :: cs => p == c && leadsWith ps cs

/-- The Python test `pat in s` on strings: substring containment. -/
def hasSub (pat : List Char) : List Char → Bool
  | [] => leadsWith pat []
  | c :: rest => leadsWith pat (c :: rest) || hasSub pat rest

/-- Does `s` end with `pat`? (For comparison with the wording of the spec;
not what the code tests.) -/
def endsWith (pat s : List Char) : Bool := leadsWith pat.reverse s.reverse

/-- The characters of `".csv"`. -/
def csvToken : List Char := '.' :: 'c' :: 's' :: 'v' :: []

/-- The output-name logic of `write_sfTA_csv` (line 249):
`if ".csv" not in csv_file: csv_file += ".csv"` — the suffix is added
exactly when `".csv"` does not occur anywhere in the name. -/
def csvFileName (name : List Char) : List Char :=
  if hasSub csvToken name then name else name ++ csvToken

/-- Pointwise agreement of two table rows on the G-magnitude and the
structure factor (the Coulomb potential may differ). -/
def sfAgrees (a b : SFRow) : Prop := a.G = b.G ∧ a.S_G = b.S_G

/-! ## Basic lemmas about grouping and aggregation -/

theorem keysOf_sorted_le (rows : List SFRow) :
    List.Sorted (· ≤ ·) (keysOf rows) :=
  List.sorted_insertionSort _ _

theorem keysOf_nodup (rows : List SFRow) : (keysOf rows).Nodup :=
  (List.perm_insertionSort _ _).symm.nodup (List.nodup_dedup _)

theorem keysOf_sorted_lt (rows : List SFRow) :
    List.Sorted (· < ·) (keysOf rows) :=
  ((keysOf_sorted_le rows).and (keysOf_nodup rows)).imp
    (fun h => lt_of_le_of_ne h.1 h.2)

theorem mem_keysOf {k : ℚ} {rows : List SFRow} :
    k ∈ keysOf rows ↔ ∃ r ∈ rows, r.G = k := by
  unfold keysOf
  rw [List.mem_insertionSort, List.mem_dedup, List.mem_map]

theorem keysOf_perm {rows₁ rows₂ : List SFRow} (h : rows₁.Perm rows₂) :
    keysOf rows₁ = keysOf rows₂ :=
  List.eq_of_perm_of_sorted
    ((List.perm_insertionSort _ _).trans
      (((h.map SFRow.G).dedup).trans (List.perm_insertionSort _ _).symm))
    (keysOf_sorted_le rows₁) (keysOf_sorted_le rows₂)

theorem groupOf_ne_nil {k : ℚ} {rows : List SFRow} (h : k ∈ keysOf rows) :
    groupOf k rows ≠ [] := by
  obtain ⟨r, hr, hG⟩ := mem_keysOf.mp h
  have : r ∈ groupOf k rows := by
    unfold groupOf
    rw [List.mem_filter]
    exact ⟨hr, by simp [hG]⟩
  intro hnil
  rw [hnil] at this
  exact (List.not_mem_nil r) this

theorem meanQ_perm {xs ys : List ℚ} (h : xs.Perm ys) : meanQ xs = meanQ ys := by
  unfold meanQ
  rw [h.sum_eq, h.length_eq]

theorem sampleVar_perm {xs ys : List ℚ} (h : xs.Perm ys) :
    sampleVar xs = sampleVar ys := by
  unfold sampleVar
  rw [meanQ_perm h, (h.map (fun x => (x - meanQ ys)^2)).sum_eq, h.length_eq]

theorem semSE_perm {xs ys : List ℚ} (h : xs.Perm ys) : semSE xs = semSE ys := by
  unfold semSE
  rw [sampleVar_perm h, h.length_eq]

theorem averageRows_map_G (rows : List SFRow) :
    (averageRows rows).map AvgRow.G = keysOf rows := by
  unfold averageRows
  rw [List.map_map]
  exact (List.map_congr_left fun a _ => rfl).trans (List.map_id _)

theorem groupMeanRows_map_G (rows : List SFRow) :
    (groupMeanRows rows).map SFRow.G = keysOf rows := by
  unfold groupMeanRows
  rw [List.map_map]
  exact (List.map_congr_left fun a _ => rfl).trans (List.map_id _)

theorem averageRows_map_S (rows : List SFRow) :
    (averageRows rows).map AvgRow.S_G
      = (keysOf rows).map (fun k => meanQ ((groupOf k rows).map SFRow.S_G)) := by
  unfold averageRows
  rw [List.map_map]
  rfl

theorem groupMeanRows_map_S (rows : List SFRow) :
    (groupMeanRows rows).map SFRow.S_G
      = (keysOf rows).map (fun k => meanQ ((groupOf k rows).map SFRow.S_G)) := by
  unfold groupMeanRows
  rw [List.map_map]
  rfl

theorem averageRuns_single (rows : List SFRow) :
    averageRuns [rows] = averageRows rows := by
  unfold averageRuns
  rw [List.flatten_cons, List.flatten_nil, List.append_nil]

theorem sumSqDiff_self (l : List ℚ) : sumSqDiff l l = 0 := by
  induction l with
  | nil => rfl
  | cons x xs ih =>
    unfold sumSqDiff at ih ⊢
    rw [List.zipWith_cons_cons, List.sum_cons, ih]
    simp

/-! ## Lemmas about `argminIdx` (`np.argmin`) -/

theorem argminIdx_lt_length : ∀ {l : List ℚ}, l ≠ [] → argminIdx l < l.length
  | [], h => absurd rfl h
  | [_], _ => Nat.zero_lt_one
  | x :: y :: ys, _ => by
    have heq : argminIdx (x :: y :: ys)
        = if x ≤ (y :: ys).getD (argminIdx (y :: ys)) 0 then 0
          else argminIdx (y :: ys) + 1 := rfl
    rw [heq]
    by_cases hc : x ≤ (y :: ys).getD (argminIdx (y :: ys)) 0
    · rw [if_pos hc]
      exact Nat.zero_lt_succ _
    · rw [if_neg hc]
      have h2 := argminIdx_lt_length (l := y :: ys) (List.cons_ne_nil _ _)
      simpa [List.length_cons] using Nat.succ_lt_succ h2

theorem argminIdx_le : ∀ (l : List ℚ) (j : ℕ), j < l.length →
    l.getD (argminIdx l) 0 ≤ l.getD j 0
  | [], _, hj => by simp at hj
  | [x], j, hj => by
    have hj0 : j = 0 := by
      simp only [List.length_cons, List.length_nil] at hj
      omega
    subst hj0
    exact le_refl _
  | x :: y :: ys, j, hj => by
    have heq : argminIdx (x :: y :: ys)
        = if x ≤ (y :: ys).getD (argminIdx (y :: ys)) 0 then 0
          else argminIdx (y :: ys) + 1 := rfl
    rw [heq]
    by_cases hc : x ≤ (y :: ys).getD (argminIdx (y :: ys)) 0
    · rw [if_pos hc]
      rw [List.getD_cons_zero]
      match j with
      | 0 => exact le_refl _
      | j + 1 =>
        rw [List.getD_cons_succ]
        exact le_trans hc (argminIdx_le (y :: ys) j (by
          simpa [List.length_cons] using hj))
    · rw [if_neg hc]
      rw [List.getD_cons_succ]
      match j with
      | 0 =>
        rw [List.getD_cons_zero]
        exact le_of_lt (not_le.mp hc)
      | j + 1 =>
        rw [List.getD_cons_succ]
        exact argminIdx_le (y :: ys) j (by simpa [List.length_cons] using hj)

theorem argminIdx_first : ∀ (l : List ℚ) (j : ℕ), j < argminIdx l →
    l.getD (argminIdx l) 0 < l.getD j 0
  | [], _, hj => by simp [argminIdx] at hj
  | [_], _, hj => by simp [argminIdx] at hj
  | x :: y :: ys, j, hj => by
    have heq : argminIdx (x :: y :: ys)
        = if x ≤ (y :: ys).getD (argminIdx (y :: ys)) 0 then 0
          else argminIdx (y :: ys) + 1 := rfl
    rw [heq] at hj ⊢
    by_cases hc : x ≤ (y :: ys).getD (argminIdx (y :: ys)) 0
    · rw [if_pos hc] at hj
      exact absurd hj (Nat.not_lt_zero j)
    · rw [if_neg hc] at hj ⊢
      rw [List.getD_cons_succ]
      match j, hj with
      | 0, _ =>
        rw [List.getD_cons_zero]
        exact not_le.mp hc
      | j + 1, hj =>
        rw [List.getD_cons_succ]
        exact argminIdx_first (y :: ys) j (Nat.lt_of_succ_lt_succ hj)

/-! ## Lemmas about the residual loop -/

theorem residualLoop_ok (avgG avgS : List ℚ) :
    ∀ (runs : List (List SFRow)),
      (∀ SFi ∈ runs, (groupMeanRows SFi).map SFRow.G = avgG) →
      residualLoop avgG avgS runs
        = .ok (runs.map (fun SFi => sumSqDiff avgS ((groupMeanRows SFi).map SFRow.S_G)))
  | [], _ => rfl
  | SFi :: rest, h => by
    have h1 : (groupMeanRows SFi).map SFRow.G = avgG := h SFi (List.mem_cons_self _ _)
    simp only [residualLoop]
    rw [if_pos h1,
      residualLoop_ok avgG avgS rest (fun x hx => h x (List.mem_cons_of_mem _ hx))]
    rfl

theorem residualLoop_error (avgG avgS : List ℚ) :
    ∀ (runs : List (List SFRow)) (SFi : List SFRow), SFi ∈ runs →
      (groupMeanRows SFi).map SFRow.G ≠ avgG →
      ∃ e, residualLoop avgG avgS runs = .error e
  | [], _, hmem, _ => absurd hmem (List.not_mem_nil _)
  | T :: rest, SFi, hmem, hne => by
    simp only [residualLoop]
    by_cases hT : (groupMeanRows T).map SFRow.G = avgG
    · rw [if_pos hT]
      rcases List.mem_cons.mp hmem with rfl | hmem2
      · exact absurd hT hne
      · obtain ⟨e, he⟩ := residualLoop_error avgG avgS rest SFi hmem2 hne
        exact ⟨e, by rw [he]; rfl⟩
    · rw [if_neg hT]
      exact ⟨_, rfl⟩

/-! ## Lemmas about the grid reader -/

theorem toTriples_length : ∀ (N : ℕ) (raw : List ℚ), raw.length = 3 * N →
    (toTriples raw).length = N
  | 0, raw, h => by
    have hnil : raw = [] := List.eq_nil_of_length_eq_zero (by omega)
    subst hnil
    rfl
  | N + 1, raw, h => by
    cases raw with
    | nil => simp at h
    | cons x r1 =>
      cases r1 with
      | nil => simp [List.length_cons] at h; omega
      | cons y r2 =>
        cases r2 with
        | nil => simp [List.length_cons] at h; omega
        | cons z rest =>
          simp only [toTriples, List.length_cons]
          have hr : rest.length = 3 * N := by
            simp only [List.length_cons] at h
            omega
          rw [toTriples_length N rest hr]

theorem magnitudes_getD : ∀ (N : ℕ) (raw : List ℚ), raw.length = 3 * N →
    ∀ i, i < N →
      ((toTriples raw).map magnitude).getD i 0
        = Real.sqrt (((raw.getD (3*i) 0 : ℚ) : ℝ)^2
            + ((raw.getD (3*i+1) 0 : ℚ) : ℝ)^2
            + ((raw.getD (3*i+2) 0 : ℚ) : ℝ)^2)
  | 0, _, _, i, hi => absurd hi (Nat.not_lt_zero i)
  | N + 1, raw, h, i, hi => by
    cases raw with
    | nil => simp at h
    | cons x r1 =>
      cases r1 with
      | nil => simp [List.length_cons] at h; omega
      | cons y r2 =>
        cases r2 with
        | nil => simp [List.length_cons] at h; omega
        | cons z rest =>
          have hr : rest.length = 3 * N := by
            simp only [List.length_cons] at h
            omega
          match i with
          | 0 =>
            simp only [toTriples, List.map_cons, List.getD_cons_zero,
              Nat.mul_zero, List.getD_cons_succ]
            rfl
          | i + 1 =>
            have h3 : 3 * (i + 1) = (3 * i + 1) + 1 + 1 := by ring
            have h4 : 3 * (i + 1) + 1 = (3 * i + 2) + 1 + 1 := by ring
            have h5 : 3 * (i + 1) + 2 = (3 * i + 2 + 1) + 1 + 1 := by ring
            simp only [toTriples, List.map_cons, List.getD_cons_succ, h3, h4, h5]
            exact magnitudes_getD N rest hr i (Nat.lt_of_succ_lt_succ hi)

/-! ## Lemmas about the `.csv` name logic -/

theorem leadsWith_append_self (p t : List Char) : leadsWith p (p ++ t) = true := by
  induction p with
  | nil => rfl
  | cons c cs ih => simp [leadsWith, ih]

theorem endsWith_append_self (s p : List Char) : endsWith p (s ++ p) = true := by
  unfold endsWith
  rw [List.reverse_append]
  exact leadsWith_append_self p.reverse s.reverse

/-! ## Congruence lemmas: the analysis depends only on the G and S_G columns -/

theorem forall₂_map_G {l₁ l₂ : List SFRow} (h : List.Forall₂ sfAgrees l₁ l₂) :
    l₁.map SFRow.G = l₂.map SFRow.G := by
  induction h with
  | nil => rfl
  | cons hab _ ih => simp only [List.map_cons, hab.1, ih]

theorem forall₂_map_S {l₁ l₂ : List SFRow} (h : List.Forall₂ sfAgrees l₁ l₂) :
    l₁.map SFRow.S_G = l₂.map SFRow.S_G := by
  induction h with
  | nil => rfl
  | cons hab _ ih => simp only [List.map_cons, hab.2, ih]

theorem forall₂_groupOf {l₁ l₂ : List SFRow} (h : List.Forall₂ sfAgrees l₁ l₂)
    (k : ℚ) : List.Forall₂ sfAgrees (groupOf k l₁) (groupOf k l₂) := by
  induction h with
  | nil => exact .nil
  | @cons a b t₁ t₂ hab _ ih =>
    simp only [groupOf, List.filter_cons] at ih ⊢
    rw [hab.1]
    by_cases hk : b.G = k
    · rw [if_pos (by rw [decide_eq_true hk]), if_pos (by rw [decide_eq_true hk])]
      exact .cons hab ih
    · rw [if_neg (by rw [decide_eq_false hk]; exact Bool.false_ne_true),
        if_neg (by rw [decide_eq_false hk]; exact Bool.false_ne_true)]
      exact ih

theorem forall₂_append {R : SFRow → SFRow → Prop} :
    ∀ {l₁ l₂ t₁ t₂ : List SFRow}, List.Forall₂ R l₁ l₂ → List.Forall₂ R t₁ t₂ →
      List.Forall₂ R (l₁ ++ t₁) (l₂ ++ t₂)
  | _, _, _, _, .nil, h2 => h2
  | _, _, _, _, .cons hab h1, h2 => .cons hab (forall₂_append h1 h2)

theorem forall₂_flatten {rs₁ rs₂ : List (List SFRow)}
    (h : List.Forall₂ (List.Forall₂ sfAgrees) rs₁ rs₂) :
    List.Forall₂ sfAgrees rs₁.flatten rs₂.flatten := by
  induction h with
  | nil => exact .nil
  | cons hab _ ih =>
    rw [List.flatten_cons, List.flatten_cons]
    exact forall₂_append hab ih

theorem keysOf_congr {l₁ l₂ : List SFRow} (h : List.Forall₂ sfAgrees l₁ l₂) :
    keysOf l₁ = keysOf l₂ := by
  unfold keysOf
  rw [forall₂_map_G h]

theorem groupMeanRows_congr_G {l₁ l₂ : List SFRow}
    (h : List.Forall₂ sfAgrees l₁ l₂) :
    (groupMeanRows l₁).map SFRow.G = (groupMeanRows l₂).map SFRow.G := by
  rw [groupMeanRows_map_G, groupMeanRows_map_G, keysOf_congr h]

theorem groupMeanRows_congr_S {l₁ l₂ : List SFRow}
    (h : List.Forall₂ sfAgrees l₁ l₂) :
    (groupMeanRows l₁).map SFRow.S_G = (groupMeanRows l₂).map SFRow.S_G := by
  rw [groupMeanRows_map_S, groupMeanRows_map_S, keysOf_congr h]
  exact List.map_congr_left fun k _ =>
    congrArg meanQ (forall₂_map_S (forall₂_groupOf h k))

theorem averageRows_congr_G {l₁ l₂ : List SFRow}
    (h : List.Forall₂ sfAgrees l₁ l₂) :
    (averageRows l₁).map AvgRow.G = (averageRows l₂).map AvgRow.G := by
  rw [averageRows_map_G, averageRows_map_G, keysOf_congr h]

theorem averageRows_congr_S {l₁ l₂ : List SFRow}
    (h : List.Forall₂ sfAgrees l₁ l₂) :
    (averageRows l₁).map AvgRow.S_G = (averageRows l₂).map AvgRow.S_G := by
  rw [averageRows_map_S, averageRows_map_S, keysOf_congr h]
  exact List.map_congr_left fun k _ =>
    congrArg meanQ (forall₂_map_S (forall₂_groupOf h k))

theorem residualLoop_congr (avgG avgS : List ℚ) {runs₁ runs₂ : List (List SFRow)}
    (h : List.Forall₂ (List.Forall₂ sfAgrees) runs₁ runs₂) :
    residualLoop avgG avgS runs₁ = residualLoop avgG avgS runs₂ := by
  induction h with
  | nil => rfl
  | cons hab _ ih =>
    simp only [residualLoop]
    rw [groupMeanRows_congr_G hab, groupMeanRows_congr_S hab, ih]

/-! ## Permutation invariance of the averager -/

theorem averageRows_perm_eq {rows₁ rows₂ : List SFRow} (h : rows₁.Perm rows₂) :
    averageRows rows₁ = averageRows rows₂ := by
  unfold averageRows
  rw [keysOf_perm h]
  apply List.map_congr_left
  intro k _
  have hV : ((groupOf k rows₁).map SFRow.V_G).Perm ((groupOf k rows₂).map SFRow.V_G) :=
    (h.filter _).map _
  have hS : ((groupOf k rows₁).map SFRow.S_G).Perm ((groupOf k rows₂).map SFRow.S_G) :=
    (h.filter _).map _
  show ({ G := k, V_G := meanQ ((groupOf k rows₁).map SFRow.V_G),
          S_G := meanQ ((groupOf k rows₁).map SFRow.S_G),
          G_error := some (k : ℝ),
          V_G_error := semSE ((groupOf k rows₁).map SFRow.V_G),
          S_G_error := semSE ((groupOf k rows₁).map SFRow.S_G) } : AvgRow)
      = { G := k, V_G := meanQ ((groupOf k rows₂).map SFRow.V_G),
          S_G := meanQ ((groupOf k rows₂).map SFRow.S_G),
          G_error := some (k : ℝ),
          V_G_error := semSE ((groupOf k rows₂).map SFRow.V_G),
          S_G_error := semSE ((groupOf k rows₂).map SFRow.S_G) }
  rw [meanQ_perm hV, meanQ_perm hS, semSE_perm hV, semSE_perm hS]

/-! ## The claims -/

/-- C1: for every non-empty list of runs whose per-run grouped
G-magnitude sequences all equal the average table G-magnitude
sequence, `find_special_twist_angle` returns `.ok i` where `i` is a
0-based index of a run of minimal residual
`Σ_G (S_avg(G) − S_run(G))²`, and every run before `i` has a strictly
larger residual (ties resolve to the first occurrence). -/
theorem find_special_twist_angle_min_residual (runs : List (List SFRow))
    (hne : runs ≠ [])
    (hgrid : ∀ SFi ∈ runs,
      (groupMeanRows SFi).map SFRow.G = (averageRuns runs).map AvgRow.G) :
    ∃ i, find_special_twist_angle runs (averageRuns runs) = .ok i
      ∧ i < runs.length
      ∧ (∀ j, j < runs.length →
          (runs.map (residualOf ((averageRuns runs).map AvgRow.S_G))).getD i 0
            ≤ (runs.map (residualOf ((averageRuns runs).map AvgRow.S_G))).getD j 0)
      ∧ (∀ j, j < i →
          (runs.map (residualOf ((averageRuns runs).map AvgRow.S_G))).getD i 0
            < (runs.map (residualOf ((averageRuns runs).map AvgRow.S_G))).getD j 0) := by
  have hloop := residualLoop_ok ((averageRuns runs).map AvgRow.G)
    ((averageRuns runs).map AvgRow.S_G) runs hgrid
  have hmapne : runs.map (residualOf ((averageRuns runs).map AvgRow.S_G)) ≠ [] := by
    intro hmap
    exact hne (List.map_eq_nil_iff.mp hmap)
  have hlen : (runs.map (residualOf ((averageRuns runs).map AvgRow.S_G))).length
      = runs.length := List.length_map _ _
  refine ⟨argminIdx (runs.map (residualOf ((averageRuns runs).map AvgRow.S_G))),
    ?_, ?_, ?_, ?_⟩
  · unfold find_special_twist_angle
    rw [hloop]
    rfl
  · rw [← hlen]
    exact argminIdx_lt_length hmapne
  · intro j hj
    exact argminIdx_le _ j (by rw [hlen]; exact hj)
  · intro j hj
    exact argminIdx_first _ j hj

/-- Witness for C1 at a concrete two-run input on a shared single-point
grid. -/
theorem find_special_twist_angle_min_residual_witness :
    ∃ i, find_special_twist_angle [[⟨1, 0, 10⟩], [⟨1, 0, 12⟩]]
        (averageRuns [[⟨1, 0, 10⟩], [⟨1, 0, 12⟩]]) = .ok i ∧ i < 2 := by
  obtain ⟨i, h1, h2, -, -⟩ :=
    find_special_twist_angle_min_residual [[⟨1, 0, 10⟩], [⟨1, 0, 12⟩]]
      (by simp) (by decide)
  exact ⟨i, h1, by simpa using h2⟩

/-- C2 (amended): the averaged table has one row per distinct rounded
G-magnitude of the combined input rows, sorted strictly ascending; each
row carries the arithmetic means of `V_G` and `S_G` over its group and
the standard errors of the mean of `V_G` and `S_G` (sample standard
deviation divided by √(group size)), `none`/NaN exactly for groups of
size 1; the `G_error` column, however, holds the G-magnitude of the group
itself (the group key of the `as_index=False` aggregation), not a
standard error. -/
theorem read_and_average_SF_spec (runs : List (List SFRow)) :
    List.Sorted (· < ·) ((averageRuns runs).map AvgRow.G)
    ∧ (∀ k : ℚ, k ∈ (averageRuns runs).map AvgRow.G ↔
        ∃ r ∈ runs.flatten, r.G = k)
    ∧ ∀ ar ∈ averageRuns runs,
        groupOf ar.G runs.flatten ≠ []
        ∧ ar.V_G = meanQ ((groupOf ar.G runs.flatten).map SFRow.V_G)
        ∧ ar.S_G = meanQ ((groupOf ar.G runs.flatten).map SFRow.S_G)
        ∧ ar.G_error = some (ar.G : ℝ)
        ∧ ar.V_G_error = semSE ((groupOf ar.G runs.flatten).map SFRow.V_G)
        ∧ ar.S_G_error = semSE ((groupOf ar.G runs.flatten).map SFRow.S_G)
        ∧ ((groupOf ar.G runs.flatten).length = 1 →
            ar.V_G_error = none ∧ ar.S_G_error = none)
        ∧ (2 ≤ (groupOf ar.G runs.flatten).length →
            ar.V_G_error
              = some (Real.sqrt (sampleVar ((groupOf ar.G runs.flatten).map SFRow.V_G))
                  / Real.sqrt ((groupOf ar.G runs.flatten).length : ℝ))
            ∧ ar.S_G_error
              = some (Real.sqrt (sampleVar ((groupOf ar.G runs.flatten).map SFRow.S_G))
                  / Real.sqrt ((groupOf ar.G runs.flatten).length : ℝ))) := by
  refine ⟨?_, ?_, ?_⟩
  · unfold averageRuns
    rw [averageRows_map_G]
    exact keysOf_sorted_lt _
  · intro k
    unfold averageRuns
    rw [averageRows_map_G]
    exact mem_keysOf
  · intro ar har
    unfold averageRuns averageRows at har
    obtain ⟨k, hk, heq⟩ := List.mem_map.mp har
    have hG : ar.G = k := by rw [← heq]
    have hV : ar.V_G = meanQ ((groupOf k runs.flatten).map SFRow.V_G) := by
      rw [← heq]
    have hS : ar.S_G = meanQ ((groupOf k runs.flatten).map SFRow.S_G) := by
      rw [← heq]
    have hGe : ar.G_error = some (k : ℝ) := by rw [← heq]
    have hVe : ar.V_G_error = semSE ((groupOf k runs.flatten).map SFRow.V_G) := by
      rw [← heq]
    have hSe : ar.S_G_error = semSE ((groupOf k runs.flatten).map SFRow.S_G) := by
      rw [← heq]
    rw [hG]
    refine ⟨groupOf_ne_nil hk, hV, hS, hGe, hVe, hSe, ?_, ?_⟩
    · intro h1
      rw [hVe, hSe]
      constructor
      all_goals
        unfold semSE
        rw [if_pos (by rw [List.length_map]; omega)]
    · intro h2
      rw [hVe, hSe]
      constructor
      all_goals
        unfold semSE
        rw [if_neg (by rw [List.length_map]; omega), List.length_map]

/-- Witness for C2 at the test vector of the spec (two runs over the
grid {1, 2}). -/
theorem read_and_average_SF_spec_witness :
    List.Sorted (· < ·)
      ((averageRuns [[⟨1, 2, 10⟩, ⟨2, 3, 20⟩], [⟨1, 4, 30⟩, ⟨2, 5, 40⟩]]).map AvgRow.G)
    ∧ (∃ r ∈ ([[⟨1, 2, 10⟩, ⟨2, 3, 20⟩], [⟨1, 4, 30⟩, ⟨2, 5, 40⟩]] :
        List (List SFRow)).flatten, r.G = 1) := by
  obtain ⟨hs, hmem, -⟩ :=
    read_and_average_SF_spec [[⟨1, 2, 10⟩, ⟨2, 3, 20⟩], [⟨1, 4, 30⟩, ⟨2, 5, 40⟩]]
  refine ⟨hs, (hmem 1).mp ?_⟩
  unfold averageRuns
  rw [averageRows_map_G]
  decide

/-- Counterexample for C2 as stated: with two runs sharing the single
G-magnitude 1, the G values of the group are [1, 1], whose standard error of
the mean is 0, but the produced `G_error` column holds the key value 1
(`as_index=False` keeps the key in the `G` column of `group.sem()`). -/
theorem average_G_error_not_sem :
    (averageRuns [[⟨1, 5, 10⟩], [⟨1, 7, 30⟩]]).map AvgRow.G_error = [some (1 : ℝ)]
    ∧ (groupOf 1 ([[⟨1, 5, 10⟩], [⟨1, 7, 30⟩]] :
        List (List SFRow)).flatten).map SFRow.G = [1, 1]
    ∧ semSE [1, 1] = some 0
    ∧ some (1 : ℝ) ≠ some (0 : ℝ) := by
  refine ⟨?_, by decide, ?_, by norm_num⟩
  · have hkeys : keysOf ([[⟨1, 5, 10⟩], [⟨1, 7, 30⟩]] :
        List (List SFRow)).flatten = [1] := by decide
    unfold averageRuns averageRows
    rw [hkeys]
    norm_num
  · have hv : sampleVar [1, 1] = 0 := by
      norm_num [sampleVar, meanQ]
    unfold semSE
    rw [if_neg (by norm_num), hv]
    norm_num

/-- C3: if the grouped G-magnitude sequence of some run differs from the
average table, `find_special_twist_angle` raises (returns
`Except.error`), so no run index is reported. -/
theorem find_special_twist_angle_grid_mismatch (runs : List (List SFRow))
    (SFi : List SFRow) (hmem : SFi ∈ runs)
    (hne : (groupMeanRows SFi).map SFRow.G ≠ (averageRuns runs).map AvgRow.G) :
    ∃ e, find_special_twist_angle runs (averageRuns runs) = .error e := by
  obtain ⟨e, he⟩ := residualLoop_error ((averageRuns runs).map AvgRow.G)
    ((averageRuns runs).map AvgRow.S_G) runs SFi hmem hne
  refine ⟨e, ?_⟩
  unfold find_special_twist_angle
  rw [he]
  rfl

/-- Witness for C3: two runs sampling different single-point grids. -/
theorem find_special_twist_angle_grid_mismatch_witness :
    ∃ e, find_special_twist_angle [[⟨1, 0, 0⟩], [⟨2, 0, 0⟩]]
        (averageRuns [[⟨1, 0, 0⟩], [⟨2, 0, 0⟩]]) = .error e :=
  find_special_twist_angle_grid_mismatch [[⟨1, 0, 0⟩], [⟨2, 0, 0⟩]]
    [⟨1, 0, 0⟩] (by decide) (by decide)

/-- C4: the averager is invariant under permutation of the combined
multiset of input rows (in particular under reordering of the runs). -/
theorem average_perm_invariant (runs₁ runs₂ : List (List SFRow))
    (h : runs₁.flatten.Perm runs₂.flatten) :
    averageRuns runs₁ = averageRuns runs₂ :=
  averageRows_perm_eq h

/-- Witness for C4: two runs merged into one in the opposite order. -/
theorem average_perm_invariant_witness :
    averageRuns [[⟨1, 2, 3⟩], [⟨2, 0, 1⟩]]
      = averageRuns [[⟨2, 0, 1⟩, ⟨1, 2, 3⟩]] :=
  average_perm_invariant _ _ (by decide)

/-- C5: building the table of a run from three parsed columns of unequal
lengths fails (pandas `DataFrame` construction raises); no truncated or
mis-aligned table is produced. -/
theorem mkRunTable_length_mismatch (G V_G S_G : List ℚ)
    (h : ¬ (G.length = V_G.length ∧ G.length = S_G.length)) :
    ∃ e, mkRunTable G V_G S_G = .error e := by
  unfold mkRunTable
  rw [if_neg h]
  exact ⟨_, rfl⟩

/-- Witness for C5 at columns of lengths 1, 2, 1. -/
theorem mkRunTable_length_mismatch_witness :
    ∃ e, mkRunTable [1] [2, 3] [4] = .error e :=
  mkRunTable_length_mismatch [1] [2, 3] [4] (by decide)

/-- C6: on a flat input of 3·N numbers the grid reader succeeds and
returns exactly N magnitudes in input order, the i-th being
√(x²+y²+z²) of the i-th consecutive triple. -/
theorem gvector_magnitudes_spec (raw : List ℚ) (N : ℕ) (h : raw.length = 3 * N) :
    read_and_generate_Gvector_magnitudes raw = .ok ((toTriples raw).map magnitude)
    ∧ ((toTriples raw).map magnitude).length = N
    ∧ ∀ i, i < N →
        ((toTriples raw).map magnitude).getD i 0
          = Real.sqrt (((raw.getD (3*i) 0 : ℚ) : ℝ)^2
              + ((raw.getD (3*i+1) 0 : ℚ) : ℝ)^2
              + ((raw.getD (3*i+2) 0 : ℚ) : ℝ)^2) := by
  refine ⟨?_, ?_, magnitudes_getD N raw h⟩
  · show (if raw.length = raw.length / 3 * 3
        then Except.ok ((toTriples raw).map magnitude)
        else Except.error "cannot reshape array")
      = Except.ok ((toTriples raw).map magnitude)
    rw [if_pos (by omega)]
  · rw [List.length_map]
    exact toTriples_length N raw h

/-- Witness for C6 at the synthetic grid of the spec, (1,0,0), (0,2,0),
(0,0,3): the second magnitude is 2. -/
theorem gvector_magnitudes_spec_witness :
    read_and_generate_Gvector_magnitudes [1, 0, 0, 0, 2, 0, 0, 0, 3]
      = .ok ((toTriples [1, 0, 0, 0, 2, 0, 0, 0, 3]).map magnitude)
    ∧ ((toTriples [1, 0, 0, 0, 2, 0, 0, 0, 3]).map magnitude).getD 1 0 = 2 := by
  obtain ⟨h1, -, h3⟩ :=
    gvector_magnitudes_spec [1, 0, 0, 0, 2, 0, 0, 0, 3] 3 rfl
  refine ⟨h1, ?_⟩
  rw [h3 1 (by norm_num)]
  have e1 : ([1, 0, 0, 0, 2, 0, 0, 0, 3] : List ℚ).getD (3*1) 0 = 0 := by decide
  have e2 : ([1, 0, 0, 0, 2, 0, 0, 0, 3] : List ℚ).getD (3*1+1) 0 = 2 := by decide
  have e3 : ([1, 0, 0, 0, 2, 0, 0, 0, 3] : List ℚ).getD (3*1+2) 0 = 0 := by decide
  rw [e1, e2, e3]
  have e4 : (((0 : ℚ) : ℝ))^2 + (((2 : ℚ) : ℝ))^2 + (((0 : ℚ) : ℝ))^2 = 2^2 := by
    push_cast
    norm_num
  rw [e4, Real.sqrt_sq (by norm_num : (0 : ℝ) ≤ 2)]

/-- C7: a grid file whose element count is not a multiple of 3 makes the
grid reader fail (the `reshape` raises); no magnitude list is
returned. -/
theorem gvector_magnitudes_reshape_error (raw : List ℚ)
    (h : raw.length % 3 ≠ 0) :
    ∃ e, read_and_generate_Gvector_magnitudes raw = .error e := by
  show ∃ e, (if raw.length = raw.length / 3 * 3
      then Except.ok ((toTriples raw).map magnitude)
      else Except.error "cannot reshape array") = Except.error e
  rw [if_neg (by omega)]
  exact ⟨_, rfl⟩

/-- Witness for C7 at a two-element grid file. -/
theorem gvector_magnitudes_reshape_error_witness :
    ∃ e, read_and_generate_Gvector_magnitudes [1, 2] = .error e :=
  gvector_magnitudes_reshape_error [1, 2] (by decide)

/-- Counterexample for C8 as stated: the name `a.csva` does not end in
`.csv`, yet the code appends nothing (it tests substring containment,
and `".csv"` occurs inside `a.csva`), so the output name is not the
given name with `.csv` appended. -/
theorem write_sfTA_csv_suffix_cex :
    endsWith csvToken ['a', '.', 'c', 's', 'v', 'a'] = false
    ∧ csvFileName ['a', '.', 'c', 's', 'v', 'a'] = ['a', '.', 'c', 's', 'v', 'a']
    ∧ ['a', '.', 'c', 's', 'v', 'a']
        ≠ ['a', '.', 'c', 's', 'v', 'a'] ++ csvToken := by
  refine ⟨by decide, by decide, by decide⟩

/-- C8 (amended): the exporter appends the `.csv` suffix if and only if
`".csv"` does not occur anywhere in the given name as a substring
(the Python `in` test); when it appends, the resulting name ends in `.csv`. -/
theorem write_sfTA_csv_suffix_spec (name : List Char) :
    (hasSub csvToken name = true → csvFileName name = name)
    ∧ (hasSub csvToken name = false →
        csvFileName name = name ++ csvToken
        ∧ endsWith csvToken (csvFileName name) = true) := by
  constructor
  · intro h
    unfold csvFileName
    rw [if_pos h]
  · intro h
    have hout : csvFileName name = name ++ csvToken := by
      unfold csvFileName
      rw [if_neg (by rw [h]; exact Bool.false_ne_true)]
    refine ⟨hout, ?_⟩
    rw [hout]
    exact endsWith_append_self name csvToken

/-- Witness for C8 at the name `data`, which does not contain `.csv`. -/
theorem write_sfTA_csv_suffix_spec_witness :
    csvFileName ['d', 'a', 't', 'a'] = ['d', 'a', 't', 'a'] ++ csvToken
    ∧ endsWith csvToken (csvFileName ['d', 'a', 't', 'a']) = true :=
  (write_sfTA_csv_suffix_spec ['d', 'a', 't', 'a']).2 (by decide)

/-- C9: the selected run depends only on the G-magnitude and
structure-factor data: two run lists agreeing row-for-row on `G` and
`S_G` (potentials arbitrary) give the same selector outcome. -/
theorem selector_ignores_potential (runs₁ runs₂ : List (List SFRow))
    (h : List.Forall₂ (List.Forall₂ sfAgrees) runs₁ runs₂) :
    find_special_twist_angle runs₁ (averageRuns runs₁)
      = find_special_twist_angle runs₂ (averageRuns runs₂) := by
  have hfl := forall₂_flatten h
  unfold find_special_twist_angle averageRuns
  rw [averageRows_congr_G hfl, averageRows_congr_S hfl, residualLoop_congr _ _ h]

/-- Witness for C9: one run, potentials 5 versus 7, same G and S_G. -/
theorem selector_ignores_potential_witness :
    find_special_twist_angle [[⟨1, 5, 10⟩]] (averageRuns [[⟨1, 5, 10⟩]])
      = find_special_twist_angle [[⟨1, 7, 10⟩]] (averageRuns [[⟨1, 7, 10⟩]]) :=
  selector_ignores_potential _ _ (.cons (.cons ⟨rfl, rfl⟩ .nil) .nil)

/-- C10: with a single input run the grid-consistency check passes by
construction, the residual of the run is exactly 0, and the selected index
is 0. -/
theorem single_run_selects_zero (rows : List SFRow) :
    find_special_twist_angle [rows] (averageRuns [rows]) = .ok 0
    ∧ residualOf ((averageRuns [rows]).map AvgRow.S_G) rows = 0 := by
  have hS : (averageRuns [rows]).map AvgRow.S_G
      = (groupMeanRows rows).map SFRow.S_G := by
    rw [averageRuns_single, averageRows_map_S, groupMeanRows_map_S]
  have hG : (groupMeanRows rows).map SFRow.G
      = (averageRuns [rows]).map AvgRow.G := by
    rw [averageRuns_single, averageRows_map_G, groupMeanRows_map_G]
  have hres : residualOf ((averageRuns [rows]).map AvgRow.S_G) rows = 0 := by
    unfold residualOf
    rw [hS]
    exact sumSqDiff_self _
  refine ⟨?_, hres⟩
  unfold find_special_twist_angle
  rw [residualLoop_ok _ _ [rows] ?_]
  · rfl
  · intro SFi hmem
    rw [List.mem_singleton.mp hmem]
    exact hG

end SfTA
